import Mathlib

/-!
# http-comparator: a shallow embedding of `server.go`

The development embeds the request handlers, the protocol resolver and the
start-up sequence of `server.go` and proves the properties stated for them.

Conventions of the embedding

* A Go `string` is a `List Char` (`GoString`).  All delimiters the program
  looks for are ASCII, so searching by character and searching by byte agree
  on well-formed UTF-8 text.
* Offsets and slice bounds count characters.  They are only ever applied to
  the string they were computed from, where a character offset and the byte
  offset Go computes select the same text.
* Go `int` results that use `-1` as "not found" are kept as `Int`.
* Calls into the Go standard library and into third-party packages are
  embedded next to the code that uses them, each under the name it has in Go.
* `log.Printf` output is not part of any handler result and is left out.
-/

namespace HttpComparator

/-- A Go string, as its sequence of characters. -/
abbrev GoString := List Char

/-! ## Constants of `server.go` -/

/-- The constant `json_delay_ms`. -/
def json_delay_ms : Nat := 1000

/-- The constant `cache_seconds`. -/
def cache_seconds : GoString := "60".toList

/-- The constant `json_size_strings`. -/
def json_size_strings : Nat := 500

/-! ## Slices and searches of the Go runtime and of package `strings` -/

/-- The slice expression `s[a:b]` for in-range bounds. -/
def slice (s : GoString) (a b : Nat) : GoString := (s.take b).drop a

/-- The slice expression `s[a:]`. -/
def sliceFrom (s : GoString) (a : Nat) : GoString := s.drop a

/-- Go `bytealg.IndexByteString`: offset of the first `c` in `s`, or `-1`. -/
def IndexByteString : GoString → Char → Int
  | [], _ => -1
  | x :: xs, c =>
    if x = c then 0
    else
      let r := IndexByteString xs c
      if r < 0 then -1 else r + 1

/-- Go `net.last`: offset of the last `c` in `s`, or `-1`. -/
def last : GoString → Char → Int
  | [], _ => -1
  | x :: xs, c =>
    let r := last xs c
    if 0 ≤ r then r + 1 else if x = c then 0 else -1

/-! ## `net.SplitHostPort` -/

/-- The error text `missing port in address`. -/
def missingPort : GoString := "missing port in address".toList

/-- The error text `too many colons in address`. -/
def tooManyColons : GoString := "too many colons in address".toList

/-- The tail of `net.SplitHostPort`: the two bracket checks on `hostport[j:]`
and `hostport[k:]`, then the port `hostport[i+1:]`. -/
def splitFinish (hostport host : GoString) (i j k : Nat) :
    Except GoString (GoString × GoString) :=
  if 0 ≤ IndexByteString (sliceFrom hostport j) '[' then
    .error "unexpected '[' in address".toList
  else if 0 ≤ IndexByteString (sliceFrom hostport k) ']' then
    .error "unexpected ']' in address".toList
  else
    .ok (host, sliceFrom hostport (i + 1))

/-- Go `net.SplitHostPort`: splits `host:port`, `host%zone:port`,
`[host]:port` or `[host%zone]:port` into host and port; the error carries the
reason text of the `AddrError`. -/
def SplitHostPort (hostport : GoString) : Except GoString (GoString × GoString) :=
  let i := last hostport ':'
  if i < 0 then .error missingPort
  else if hostport.head? = some '[' then
    let e := IndexByteString hostport ']'
    if e < 0 then .error "missing ']' in address".toList
    else if e + 1 = hostport.length then .error missingPort
    else if e + 1 = i then
      splitFinish hostport (slice hostport 1 e.toNat) i.toNat 1 (e.toNat + 1)
    else if hostport.get? (e.toNat + 1) = some ':' then .error tooManyColons
    else .error missingPort
  else
    let host := slice hostport 0 i.toNat
    if 0 ≤ IndexByteString host ':' then .error tooManyColons
    else splitFinish hostport host i.toNat 0 0

/-! ## Requests -/

/-- Go `http.Header`: canonical field name to the list of its values. -/
abbrev Header := GoString → List GoString

/-- Go `http.Header.Get`: the first value of the field, or the empty string.
The two field names the program passes (`Purpose`, `Cache-Control`) are
already in canonical form. -/
def Header.Get (h : Header) (key : GoString) : GoString :=
  match h key with
  | [] => []
  | v :: _ => v

/-- Go `http.Header.Add`: appends a value to the field. -/
def Header.Add (h : Header) (key value : GoString) : Header :=
  fun k => if k = key then h k ++ [value] else h k

/-- The fields of `http.Request` the program reads.  `TLS` is `none` for the
nil pointer. -/
structure Request where
  Method : GoString
  Host : GoString
  RequestURI : GoString
  URLPath : GoString
  Header : Header
  TLS : Option Unit

/-! ## `schemeResolver` and `protocolResolver` -/

/-- The function `schemeResolver`. -/
def schemeResolver (request : Request) : GoString :=
  match request.TLS with
  | some _ => "https".toList
  | none => "http".toList

/-- The map literal `protocols` of `protocolResolver`. -/
def protocols : List (GoString × GoString) :=
  [ ("8080".toList, "http/1.1".toList),
    ("8081".toList, "http/1.1 + TLS".toList),
    ("8082".toList, "http/2".toList),
    ("8083".toList, "QUIC".toList) ]

/-- Indexing a Go `map[string]string`: the value stored under the key, or the
zero value `""`. -/
def mapIndex (m : List (GoString × GoString)) (key : GoString) : GoString :=
  match m with
  | [] => []
  | (k, v) :: rest => if key = k then v else mapIndex rest key

/-- The function `protocolResolver`; the result is `(transport, port, protocol)`. -/
def protocolResolver (request : Request) : GoString × GoString × GoString :=
  let port : GoString :=
    match SplitHostPort request.Host with
    | .ok (_, port) => port
    | .error _ => "80".toList
  let protocol := mapIndex protocols port
  let transport : GoString := if protocol = "QUIC".toList then "udp".toList else "tcp".toList
  (transport, port, protocol)

/-! ## Package `strings` -/

/-- Go `strings.HasPrefix`: `len(s) >= len(p) && s[:len(p)] == p`. -/
def HasPrefix (s p : GoString) : Bool :=
  decide (p.length ≤ s.length) && decide (slice s 0 p.length = p)

/-- Go `strings.TrimPrefix`: `s` without the leading `p`, or `s` itself when
it does not start with `p`. -/
def TrimPrefix (s p : GoString) : GoString :=
  if HasPrefix s p then sliceFrom s p.length else s

/-- Go `strings.Index`: offset of the first occurrence of `substr` in `s`, or
`-1`. -/
def Index : GoString → GoString → Int
  | [], substr => if substr = [] then 0 else -1
  | x :: xs, substr =>
    if HasPrefix (x :: xs) substr then 0
    else
      let r := Index xs substr
      if r < 0 then -1 else r + 1

/-- Go `strings.Contains`. -/
def Contains (s substr : GoString) : Bool := decide (0 ≤ Index s substr)

/-- The search loop of Go `strings.Count`: repeatedly find `substr`, count it,
and continue behind it.  The first argument bounds the number of rounds. -/
def countLoop (substr : GoString) : Nat → GoString → Nat → Nat
  | 0, _, n => n
  | fuel + 1, s, n =>
    let i := Index s substr
    if i = -1 then n
    else countLoop substr fuel (sliceFrom s (i.toNat + substr.length)) (n + 1)

/-- Go `strings.Count`: the number of non-overlapping occurrences of `substr`
in `s`; for the empty `substr`, one more than the number of characters. -/
def Count (s substr : GoString) : Nat :=
  match substr with
  | [] => s.length + 1
  | [c] => s.count c
  | _ => countLoop substr (s.length + 1) s 0

/-- The replacement loop of Go `strings.Replace`, on `rest = s[start:]`: `n`
rounds are left, `first` says whether this is round `i = 0`. -/
def replaceLoop (old new : GoString) : Nat → Bool → GoString → GoString
  | 0, _, rest => rest
  | n + 1, first, rest =>
    let j : Nat :=
      if old.length = 0 then
        if first then 0 else if rest = [] then 0 else 1
      else (Index rest old).toNat
    slice rest 0 j ++ new ++ replaceLoop old new n false (sliceFrom rest (j + old.length))

/-- Go `strings.Replace(s, old, new, n)`: the first `n` non-overlapping
occurrences of `old` replaced by `new`, all of them when `n < 0`. -/
def Replace (s old new : GoString) (n : Int) : GoString :=
  if old = new ∨ n = 0 then s
  else
    let m := Count s old
    if m = 0 then s
    else
      let k : Nat := if n < 0 ∨ (m : Int) < n then m else n.toNat
      replaceLoop old new k true s

/-- Go `strconv.Itoa` on a non-negative number. -/
def Itoa (n : Nat) : GoString := Nat.toDigits 10 n

/-! ## Package `fmt` -/

/-- The characters that open flags, an argument index, a width or a precision
after `%` in a format. -/
def verbModifiers : List Char :=
  ['#', '0', '+', '-', ' ', '[', '*', '.', '1', '2', '3', '4', '5', '6', '7', '8', '9']

/-- Go `fmt.Sprintf` on string operands, for the formats made of literal
text, `%%`, the plain verb `%s`, a plain verb with no operand left
(`%!c(MISSING)`) and a final lone `%` (`%!(NOVERB)`).  The result is `none`
for a format outside this fragment: flags, widths, precisions, argument
indexes, other verbs applied to an operand, surplus operands. -/
def Sprintf : GoString → List GoString → Option GoString
  | [], [] => some []
  | [], _ :: _ => none
  | ['%'], [] => some "%!(NOVERB)".toList
  | ['%'], _ :: _ => none
  | '%' :: c :: rest, operands =>
    if c = '%' then (Sprintf rest operands).map (fun t => '%' :: t)
    else if c ∈ verbModifiers then none
    else
      match operands with
      | [] => (Sprintf rest []).map (fun t => "%!".toList ++ c :: "(MISSING)".toList ++ t)
      | a :: more => if c = 's' then (Sprintf rest more).map (fun t => a ++ t) else none
  | c :: rest, operands => (Sprintf rest operands).map (fun t => c :: t)

/-- One call `fmt.Fprintf(response, format, operands...)`. -/
structure FprintfCall where
  format : GoString
  operands : List GoString

/-- The text a list of `Fprintf` calls writes, in order. -/
def renderCalls : List FprintfCall → Option GoString
  | [] => some []
  | call :: rest =>
    match Sprintf call.format call.operands, renderCalls rest with
    | some a, some b => some (a ++ b)
    | _, _ => none

/-- Go `http.ResponseWriter` as the handlers use it: the response header and
the `Fprintf` calls made on the writer. -/
structure ResponseWriter where
  header : Header
  written : List FprintfCall

/-- The call `fmt.Fprintf(response, format, operands...)`. -/
def ResponseWriter.Fprintf (response : ResponseWriter) (format : GoString)
    (operands : List GoString) : ResponseWriter :=
  { response with written := response.written ++ [⟨format, operands⟩] }

/-- The response body: what the `Fprintf` calls wrote. -/
def ResponseWriter.body (response : ResponseWriter) : Option GoString :=
  renderCalls response.written

/-- The writer a handler receives from the server: no header field set,
nothing written. -/
def ResponseWriter.fresh : ResponseWriter := ⟨fun _ => [], []⟩

/-! ## The response cache (`github.com/patrickmn/go-cache`) -/

/-- A Go `interface{}` value held by the cache: a string, or a value of some
other dynamic type. -/
inductive CacheValue where
  | str (s : GoString)
  | other (tag : Nat)

/-- Modelled from the spec: the cache entry of `go-cache`, a stored object and
its expiry instant in nanoseconds (`0` or less: never expires). -/
structure Item where
  Object : CacheValue
  Expiration : Int

/-- Modelled from the spec: the `go-cache` store, its default time-to-live in
nanoseconds and its map from key to entry. -/
structure Cache where
  defaultExpiration : Int
  items : GoString → Option Item

/-- Go `time.Minute`, in nanoseconds. -/
def Minute : Int := 60 * 1000000000

/-- The constant `cache.DefaultExpiration`. -/
def DefaultExpiration : Int := 0

/-- Modelled from the spec: `cache.New(defaultExpiration, cleanupInterval)`,
an empty store. -/
def Cache.New (defaultExpiration _cleanupInterval : Int) : Cache :=
  { defaultExpiration := if defaultExpiration = 0 then -1 else defaultExpiration,
    items := fun _ => none }

/-- Modelled from the spec: `Get(key) -> (value, found)` read at clock `now`;
`none` stands for `found = false`, reported when the key is absent or its
entry has expired.  The store is not changed. -/
def Cache.Get (c : Cache) (k : GoString) (now : Int) : Option CacheValue :=
  match c.items k with
  | none => none
  | some item =>
    if 0 < item.Expiration ∧ item.Expiration < now then none else some item.Object

/-- Modelled from the spec: `Set(key, value, d)` at clock `now`; inserts or
overwrites, with expiry `now + d`, where `d = DefaultExpiration` selects the
default time-to-live. -/
def Cache.Set (c : Cache) (k : GoString) (x : CacheValue) (d : Int) (now : Int) : Cache :=
  let d := if d = DefaultExpiration then c.defaultExpiration else d
  let e : Int := if 0 < d then now + d else 0
  { c with items := fun key => if key = k then some ⟨x, e⟩ else c.items key }

/-- Modelled from the spec: the background sweep (`DeleteExpired`) at clock
`now`, which removes every entry whose expiry has passed. -/
def Cache.DeleteExpired (c : Cache) (now : Int) : Cache :=
  { c with
    items := fun key =>
      match c.items key with
      | none => none
      | some item => if 0 < item.Expiration ∧ item.Expiration < now then none else some item }

/-! ## The payload generator -/

/-- The local type `Data` of `makeFakeJson`. -/
structure Data where
  Name : GoString
  Email : GoString
  Address : GoString

/-- A `Data` record without the character `%`. -/
def Data.plain (d : Data) : Prop := '%' ∉ d.Name ∧ '%' ∉ d.Email ∧ '%' ∉ d.Address

/-- What one round of the loop of `makeFakeJson` draws: the sixteen bytes of
`uuid.NewV4()` (byte `i` is `uuid i`, read modulo 256) and the record built
from `randomdata.SillyName()`, `randomdata.Email()` and
`randomdata.Address()`. -/
structure Draw where
  uuid : Nat → Nat
  data : Data

/-- The source of the random content of `makeFakeJson`: the number of calls
made so far and what round `i` of call `n` draws.  The texts of go-randomdata
are put together from its word lists, from digits, blanks and the punctuation
of names, mail addresses and postal addresses; none of them holds a `%`. -/
structure Generator where
  calls : Nat
  draw : Nat → Nat → Draw
  plain : ∀ call round, (draw call round).data.plain

/-- A digit of Go `encoding/hex`. -/
def hexDigit (n : Nat) : Char :=
  match n % 16 with
  | 0 => '0' | 1 => '1' | 2 => '2' | 3 => '3' | 4 => '4' | 5 => '5' | 6 => '6' | 7 => '7'
  | 8 => '8' | 9 => '9' | 10 => 'a' | 11 => 'b' | 12 => 'c' | 13 => 'd' | 14 => 'e'
  | _ => 'f'

/-- Go `hex.Encode` of the bytes `u[a]`, ..., `u[a + n - 1]`. -/
def hexEncode (u : Nat → Nat) (a : Nat) : Nat → GoString
  | 0 => []
  | n + 1 => hexDigit (u a % 256 / 16) :: hexDigit (u a % 256) :: hexEncode u (a + 1) n

/-- The method `UUID.String` of `satori/go.uuid`: the sixteen bytes in
hexadecimal, grouped 8-4-4-4-12. -/
def UUIDString (u : Nat → Nat) : GoString :=
  hexEncode u 0 4 ++ '-' :: hexEncode u 4 2 ++ '-' :: hexEncode u 6 2 ++
    '-' :: hexEncode u 8 2 ++ '-' :: hexEncode u 10 6

/-- How Go `encoding/json` writes one character of a string: the double
quote and the backslash behind a backslash; line feed, carriage return and
tab as backslash `n`, `r`, `t`; the other control characters and `<`, `>`,
`&` as a `u00XX` escape; the separators U+2028 and U+2029 as a `u202X`
escape; every other character as it is. -/
def jsonEscape (c : Char) : GoString :=
  if c = '"' then ['\\', '"']
  else if c = '\\' then ['\\', '\\']
  else if c = '\n' then ['\\', 'n']
  else if c = '\r' then ['\\', 'r']
  else if c = '\t' then ['\\', 't']
  else if c.toNat < 32 ∨ c = '<' ∨ c = '>' ∨ c = '&' then
    ['\\', 'u', '0', '0', hexDigit (c.toNat / 16), hexDigit c.toNat]
  else if c.toNat = 8232 ∨ c.toNat = 8233 then
    ['\\', 'u', '2', '0', '2', hexDigit c.toNat]
  else [c]

/-- The characters of a string as `encoding/json` writes them. -/
def jsonEscapeAll : GoString → GoString
  | [] => []
  | c :: cs => jsonEscape c ++ jsonEscapeAll cs

/-- A Go string as a JSON string. -/
def jsonString (s : GoString) : GoString :=
  '"' :: jsonEscapeAll s ++ ['"']

/-- The JSON object of a `Data` record, fields in declaration order. -/
def jsonData (d : Data) : GoString :=
  "\x7b\"Name\":".toList ++ jsonString d.Name ++ ",\"Email\":".toList ++ jsonString d.Email ++
    ",\"Address\":".toList ++ jsonString d.Address ++ "\x7d".toList

/-- The members of a JSON object, separated by commas. -/
def jsonMembers : List (GoString × Data) → GoString
  | [] => []
  | [(k, d)] => jsonString k ++ ':' :: jsonData d
  | (k, d) :: rest => jsonString k ++ ':' :: jsonData d ++ ',' :: jsonMembers rest

/-- Whether `a` sorts before `b`. -/
def ltString : GoString → GoString → Bool
  | [], [] => false
  | [], _ :: _ => true
  | _ :: _, [] => false
  | x :: xs, y :: ys => decide (x < y) || (decide (x = y) && ltString xs ys)

/-- A Go `map[string]Data`, kept as the list of its entries in the order of
their keys, which is the order `json.Marshal` writes them in.  This is the
assignment `object[k] = d`. -/
def mapAssign : List (GoString × Data) → GoString → Data → List (GoString × Data)
  | [], k, d => [(k, d)]
  | (k1, d1) :: rest, k, d =>
    if k = k1 then (k, d) :: rest
    else if ltString k k1 then (k, d) :: (k1, d1) :: rest
    else (k1, d1) :: mapAssign rest k d

/-- Go `json.Marshal` of a `map[string]Data`. -/
def Marshal (object : List (GoString × Data)) : GoString :=
  "\x7b".toList ++ jsonMembers object ++ "\x7d".toList

/-- The loop of `makeFakeJson`: rounds `i`, `i + 1`, ... of call `call`, `n`
of them. -/
def fillObject (g : Generator) (call : Nat) :
    Nat → Nat → List (GoString × Data) → List (GoString × Data)
  | 0, _, object => object
  | n + 1, i, object =>
    fillObject g call n (i + 1)
      (mapAssign object (UUIDString (g.draw call i).uuid) (g.draw call i).data)

/-- The function `makeFakeJson`: `line_number` rounds fill the map, and the
result is its JSON text.  The simulated delay has no effect on the value. -/
def makeFakeJson (line_number : Nat) (g : Generator) : GoString × Generator :=
  (Marshal (fillObject g g.calls line_number 0 []), { g with calls := g.calls + 1 })

/-- The entries of a map all have a `%`-free key and a `%`-free record. -/
def plainEntries (object : List (GoString × Data)) : Prop :=
  ∀ entry ∈ object, '%' ∉ entry.1 ∧ entry.2.plain

/-! ## The handlers -/

/-- The process state the handlers share: the global `inmem_cache` and the
payload generator. -/
structure Server where
  inmem_cache : Cache
  generator : Generator

/-- The function `jsonStubber`, run at clock `now`.  The result is `none` when
the type assertion `json.(string)` panics. -/
def jsonStubber (st : Server) (now : Int) (response : ResponseWriter) (request : Request) :
    Option (Server × ResponseWriter) :=
  let lookup : Option (GoString × Server) :=
    match st.inmem_cache.Get request.RequestURI now with
    | some (.str s) => some (s, st)
    | some (.other _) => none
    | none =>
      let (page, g) := makeFakeJson json_size_strings st.generator
      some (page, { st with generator := g })
  match lookup with
  | none => none
  | some (page, st1) =>
    let response1 : ResponseWriter :=
      if request.Header.Get "Purpose".toList = "prefetch".toList then
        { response with
          header := response.header.Add "Cache-Control".toList
            ("private, max-age=".toList ++ cache_seconds) }
      else response
    some (st1, response1.Fprintf page [])

/-- The function `jsonCacher`; `now` is the clock at the `Set`. -/
def jsonCacher (st : Server) (now : Int) (response : ResponseWriter) (request : Request) :
    Server × ResponseWriter :=
  let (page, g) := makeFakeJson json_size_strings st.generator
  let assetURI := TrimPrefix request.RequestURI "/cache".toList
  let c := st.inmem_cache.Set assetURI (.str page) DefaultExpiration now
  ({ inmem_cache := c, generator := g }, response.Fprintf "cached %s".toList [assetURI])

/-- The type `Page`. -/
structure Page where
  Title : GoString
  Body : GoString

/-- The function `loadPage`, reading from the file system `fs` (`none`: the
read fails). -/
def loadPage (fs : GoString → Option GoString) (title : GoString) : Option Page :=
  let filename := if !Contains title ".".toList then title ++ ".txt".toList else title
  match fs filename with
  | none => none
  | some body => some { Title := title, Body := body }

/-- The chain of `strings.Replace` calls of `standaloneDemoPageHandler`. -/
def fillTemplate (page : GoString) (request : Request) : GoString :=
  let (transport, port, protocol) := protocolResolver request
  let page := Replace page "$transport$".toList transport (-1)
  let page := Replace page "$port$".toList port (-1)
  let page := Replace page "$protocol$".toList protocol (-1)
  let page := Replace page "$hostname$".toList request.Host (-1)
  let page := Replace page "$scheme$".toList (schemeResolver request) (-1)
  let page := Replace page "$data_delay$".toList (Itoa json_delay_ms) (-1)
  page

/-- How a call of `standaloneDemoPageHandler` ends. -/
inductive PageResult where
  /-- The slice `request.RequestURI[1:]` panics. -/
  | panicked
  /-- The first character of the URI takes more than one byte, so that
  `request.RequestURI[1:]` cuts it apart and the file name is no longer text;
  the embedding does not follow the handler there.  `net/http` dispatches no
  such request: the target of a routed request starts with `/` or with the
  letter of a scheme. -/
  | notText
  /-- The handler returns and leaves the writer in this state. -/
  | done (response : ResponseWriter)

/-- The function `standaloneDemoPageHandler`; on a failed load nothing is
written. -/
def standaloneDemoPageHandler (fs : GoString → Option GoString) (response : ResponseWriter)
    (request : Request) : PageResult :=
  match request.RequestURI with
  | [] => .panicked
  | c :: rest =>
    if 128 ≤ c.toNat then .notText
    else
      match loadPage fs (rest ++ ".html".toList) with
      | none => .done response
      | some page => .done (response.Fprintf (fillTemplate page.Body request) [])

/-- Every value the cache holds is a string without `%`. -/
def Cache.plain (c : Cache) : Prop :=
  ∀ k item, c.items k = some item → ∃ s, item.Object = .str s ∧ '%' ∉ s

/-- The process states the program reaches: the state `main` sets up, and
every state a handler call or a sweep of the cache leads to from there. -/
inductive Reachable : Server → Prop where
  | start (g : Generator) : Reachable ⟨Cache.New (5 * Minute) (10 * Minute), g⟩
  | cacher {st : Server} (now : Int) (response : ResponseWriter) (request : Request) :
      Reachable st → Reachable (jsonCacher st now response request).1
  | stubber {st st1 : Server} (now : Int) (response response1 : ResponseWriter)
      (request : Request) :
      Reachable st → jsonStubber st now response request = some (st1, response1) →
      Reachable st1
  | sweep {st : Server} (now : Int) :
      Reachable st → Reachable { st with inmem_cache := st.inmem_cache.DeleteExpired now }

/-! ## Start-up: `main` -/

/-- A Go `[]byte` as `main` uses it: the array behind the slice, from the
first element of the slice on, and the length of the slice. -/
structure ByteSlice where
  array : GoString
  len : Nat

/-- The capacity `cap(b)`. -/
def ByteSlice.cap (b : ByteSlice) : Nat := b.array.length

/-- The function `getSslFiles`: certificate path and private-key path. -/
def getSslFiles : GoString × GoString := ("ssl/server.crt".toList, "ssl/server.key".toList)

/-- The function `getCertBody`, reading through `readFile` (`none`: the read
fails); the result is `none` when the function panics. -/
def getCertBody (readFile : GoString → Option ByteSlice) (filename : GoString) :
    Option ByteSlice :=
  match readFile filename with
  | none => none
  | some body => some body

/-- The actions `main` performs, in program order. -/
inductive Action where
  /-- `cache.New` and `OnEvicted`. -/
  | cacheNew
  /-- `fmt.Println` of the given operands. -/
  | println (operands : List GoString)
  /-- `ioutil.ReadFile` on a path. -/
  | readFile (filename : GoString)
  /-- `http.HandleFunc` or `http.Handle` on a pattern. -/
  | handle (pattern : GoString)
  /-- `go http.ListenAndServe(addr, nil)`: a detached listener. -/
  | goListenAndServe (addr : GoString)
  /-- `go http.ListenAndServeTLS(addr, cert, key, nil)`: a detached listener. -/
  | goListenAndServeTLS (addr cert key : GoString)
  /-- `go https.ListenAndServeTLS(cert, key)` on the server with an empty
  `TLSNextProto`: a detached listener. -/
  | goServerListenAndServeTLS (addr cert key : GoString)
  /-- `utils.SetLogLevel`. -/
  | setLogLevel
  /-- `h2quic.ListenAndServeQUIC(addr, cert, key, nil)`, called in `main`
  itself. -/
  | callListenAndServeQUIC (addr cert key : GoString)
  deriving DecidableEq

/-- How `main` ends: by a panic, by returning (which ends the process), or
never, blocked in a call that does not return. -/
inductive MainResult where
  | panicked
  | returned
  | blocked
  deriving DecidableEq

/-- The address a listener-start action binds, detached or not; `none` for
every other action. -/
def Action.listenerAddr : Action → Option GoString
  | .goListenAndServe addr => some addr
  | .goListenAndServeTLS addr _ _ => some addr
  | .goServerListenAndServeTLS addr _ _ => some addr
  | .callListenAndServeQUIC addr _ _ => some addr
  | _ => none

/-- Whether the action starts a listener as a detached `go` task. -/
def Action.isDetached : Action → Bool
  | .goListenAndServe _ => true
  | .goListenAndServeTLS _ _ _ => true
  | .goServerListenAndServeTLS _ _ _ => true
  | _ => false

/-- The patterns `main` registers, in order. -/
def routes : List GoString :=
  [ "/".toList, "/json".toList, "/cache/".toList, "/cookie-test".toList,
    "/benchmark".toList, "/demo".toList, "/demo_sharding".toList, "/ui".toList,
    "/static/".toList ]

/-- The function `main`.  `readFile` is the file system (`none`: the read
fails); `listener addr` is what the listener on `addr` does once started:
`none` when it serves forever, `some err` when it gives up with error `err`.
The result is the list of actions performed and the way `main` ends. -/
def main (readFile : GoString → Option ByteSlice) (listener : GoString → Option GoString) :
    List Action × MainResult :=
  let (sslCert, sslKey) := getSslFiles
  let start : List Action :=
    [ .cacheNew, .println ["Listening on ports: 8080-8083".toList], .readFile sslCert ]
  match getCertBody readFile sslCert with
  | none => (start, .panicked)
  | some body =>
    if body.cap < 50 then (start, .panicked)
    else
      let trace : List Action :=
        start ++
        [ .println ["Using cert from:".toList, sslCert, "\n".toList,
            slice body.array 0 50, "...".toList] ] ++
        routes.map .handle ++
        [ .goListenAndServe ":8080".toList,
          .goListenAndServeTLS ":8082".toList sslCert sslKey,
          .goServerListenAndServeTLS ":8081".toList sslCert sslKey,
          .setLogLevel,
          .callListenAndServeQUIC ":8083".toList sslCert sslKey ]
      match listener ":8083".toList with
      | none => (trace, .blocked)
      | some _ => (trace, .returned)

/-! ## The substitution the demo page is described by -/

/-- Whether `p` is an initial segment of `s`. -/
def startsWith : GoString → GoString → Bool
  | _, [] => true
  | [], _ :: _ => false
  | x :: xs, y :: ys => decide (x = y) && startsWith xs ys

/-- Replace-all pass, written from its description: scanning left to right,
every occurrence of the non-empty `old` found outside the occurrences already
replaced is replaced by `new`.  `skip` counts the characters of a matched
occurrence still to be passed over. -/
def replaceAllFrom (old new : GoString) : Nat → GoString → GoString
  | _, [] => []
  | skip + 1, _ :: xs => replaceAllFrom old new skip xs
  | 0, x :: xs =>
    if startsWith (x :: xs) old then new ++ replaceAllFrom old new (old.length - 1) xs
    else x :: replaceAllFrom old new 0 xs

/-- One replace-all pass over `s`. -/
def replaceAll (old new s : GoString) : GoString := replaceAllFrom old new 0 s

/-- The values of the six placeholders for a request, in the order
`$transport$`, `$port$`, `$protocol$`, `$hostname$`, `$scheme$`,
`$data_delay$`. -/
def placeholderValues (request : Request) : List (GoString × GoString) :=
  [ ("$transport$".toList, (protocolResolver request).1),
    ("$port$".toList, (protocolResolver request).2.1),
    ("$protocol$".toList, (protocolResolver request).2.2),
    ("$hostname$".toList, request.Host),
    ("$scheme$".toList,
      match request.TLS with
      | some _ => "https".toList
      | none => "http".toList),
    ("$data_delay$".toList, "1000".toList) ]

/-- The value of the placeholder that starts `s`, with the placeholder's
length, if one does. -/
def placeholderAt (table : List (GoString × GoString)) (s : GoString) :
    Option (GoString × Nat) :=
  match table with
  | [] => none
  | (name, value) :: rest =>
    if startsWith s name then some (value, name.length) else placeholderAt rest s

/-- Substitution in one pass, written from the claim: scanning the template
left to right, each placeholder occurrence is replaced by its value and all
other text is copied unchanged; substituted text is never scanned again. -/
def substituteOnce (table : List (GoString × GoString)) : Nat → GoString → GoString
  | _, [] => []
  | skip + 1, _ :: xs => substituteOnce table skip xs
  | 0, x :: xs =>
    match placeholderAt table (x :: xs) with
    | some (value, len) => value ++ substituteOnce table (len - 1) xs
    | none => x :: substituteOnce table 0 xs

/-- Substitution in six successive passes, in the order of the table: each
pass is a replace-all pass over the output of the pass before it. -/
def substituteInTurn (table : List (GoString × GoString)) (s : GoString) : GoString :=
  table.foldl (fun page entry => replaceAll entry.1 entry.2 page) s

/-! ## Sample inputs -/

/-- A `GET` request without header fields and without TLS. -/
def plainRequest (host uri : GoString) : Request :=
  ⟨"GET".toList, host, uri, uri, fun _ => [], none⟩

/-- A `GET` request to `/json` that carries `Purpose: prefetch`. -/
def prefetchRequest : Request :=
  ⟨"GET".toList, "localhost:8080".toList, "/json".toList, "/json".toList,
    fun k => if k = "Purpose".toList then ["prefetch".toList] else [], none⟩

/-- A request to `/json` that carries `Purpose: other` and then
`Purpose: prefetch`. -/
def secondPrefetchRequest : Request :=
  ⟨"GET".toList, "localhost:8080".toList, "/json".toList, "/json".toList,
    fun k => if k = "Purpose".toList then ["other".toList, "prefetch".toList] else [], none⟩

/-- A `GET` request that arrived over TLS. -/
def tlsRequest (host uri : GoString) : Request :=
  ⟨"GET".toList, host, uri, uri, fun _ => [], some ()⟩

/-- A record as go-randomdata draws it. -/
def sampleData : Data :=
  ⟨"Jumperstone".toList, "miajones042@example.com".toList,
    "12 Main St,\nSpringfield, IL, 62701".toList⟩

/-- A generator that draws the same record in every round. -/
def sampleGenerator : Generator :=
  ⟨0, fun _ _ => ⟨fun i => 17 * i + 3, sampleData⟩,
    fun _ _ => show sampleData.plain from ⟨by decide, by decide, by decide⟩⟩

/-- The process state right after `main` created the cache. -/
def initialServer : Server :=
  ⟨Cache.New (5 * Minute) (10 * Minute), sampleGenerator⟩

/-- The bytes of a PEM file, read into a slice without spare capacity. -/
def sampleCertificate : ByteSlice :=
  ⟨"-----BEGIN CERTIFICATE-----\nMIIBhTCCASugAwIBAgIQIRi6zePL6mKjOipn".toList, 64⟩

/-- A file system with a readable certificate and no private key. -/
def certOnly : GoString → Option ByteSlice :=
  fun p => if p = "ssl/server.crt".toList then some sampleCertificate else none

/-- A file system with a readable private key and no certificate. -/
def keyOnly : GoString → Option ByteSlice :=
  fun p => if p = "ssl/server.key".toList then some sampleCertificate else none

/-- Listeners that all give up at once. -/
def failingListeners : GoString → Option GoString := fun _ => some "bind: address in use".toList

/-- Listeners that all serve forever. -/
def servingListeners : GoString → Option GoString := fun _ => none

/-- Listeners as they behave without a private key: the plain listener on
`:8080` serves, every listener that needs the key gives up. -/
def keylessListeners : GoString → Option GoString :=
  fun addr => if addr = ":8080".toList then none
    else some "open ssl/server.key: no such file or directory".toList

/-- A file system whose only file is `demo.html` with the given text. -/
def demoFiles (template : GoString) : GoString → Option GoString :=
  fun p => if p = "demo.html".toList then some template else none

/-! ## Theorems -/

theorem IndexByteString_neg_iff (s : GoString) (c : Char) :
    IndexByteString s c < 0 ↔ c ∉ s := by
  induction s with
  | nil => simp [IndexByteString]
  | cons x xs ih =>
    by_cases hx : x = c
    · subst hx; simp [IndexByteString]
    · have hx' : ¬ c = x := fun h => hx h.symm
      by_cases hr : IndexByteString xs c < 0
      · simp [IndexByteString, hx, hx', hr, ih.mp hr]
      · have hmem : c ∈ xs := by
          by_contra hc
          exact hr (ih.mpr hc)
        have h0 : 0 ≤ IndexByteString xs c := not_lt.mp hr
        simp [IndexByteString, hx, hr, hmem]
        omega

theorem last_neg_iff (s : GoString) (c : Char) : last s c < 0 ↔ c ∉ s := by
  induction s with
  | nil => simp [last]
  | cons x xs ih =>
    by_cases hr : 0 ≤ last xs c
    · have hmem : c ∈ xs := by
        by_contra hc
        have := ih.mpr hc
        omega
      simp [last, hr, hmem]
      omega
    · have hnot : c ∉ xs := ih.mp (not_le.mp hr)
      by_cases hx : x = c
      · subst hx; simp [last, hr]
      · have hx' : ¬ c = x := fun h => hx h.symm
        simp [last, hr, hx, hx', hnot]

theorem mapIndex_protocols (port : GoString) :
    mapIndex protocols port =
      if port = "8080".toList then "http/1.1".toList
      else if port = "8081".toList then "http/1.1 + TLS".toList
      else if port = "8082".toList then "http/2".toList
      else if port = "8083".toList then "QUIC".toList
      else [] := by
  simp [mapIndex, protocols]

theorem mapIndex_protocols_quic (port : GoString) :
    mapIndex protocols port = "QUIC".toList ↔ port = "8083".toList := by
  rw [mapIndex_protocols]
  constructor
  · intro h
    by_contra hne
    split_ifs at h <;> revert h <;> decide
  · rintro rfl
    decide

theorem protocolResolver_of_port (request : Request) (host port : GoString)
    (h : SplitHostPort request.Host = .ok (host, port)) :
    protocolResolver request =
      (if mapIndex protocols port = "QUIC".toList then "udp".toList else "tcp".toList,
        port, mapIndex protocols port) := by
  simp [protocolResolver, h]

theorem protocolResolver_of_error (request : Request) (e : GoString)
    (h : SplitHostPort request.Host = .error e) :
    protocolResolver request = ("tcp".toList, "80".toList, []) := by
  simp only [protocolResolver, h]
  decide

theorem mem_take_last_of_two (s : GoString) (c : Char) (h : 2 ≤ s.count c) :
    c ∈ s.take (last s c).toNat := by
  induction s with
  | nil => simp at h
  | cons x xs ih =>
    by_cases hr : 0 ≤ last xs c
    · have hl : last (x :: xs) c = last xs c + 1 := by simp [last, hr]
      have ht : (last xs c + 1).toNat = (last xs c).toNat + 1 := by omega
      rw [hl, ht, List.take_succ_cons]
      by_cases hx : x = c
      · subst hx; simp
      · have hx' : ¬ (x == c) = true := by simpa using hx
        rw [List.count_cons, if_neg hx'] at h
        exact List.mem_cons_of_mem _ (ih (by simpa using h))
    · have hnot : c ∉ xs := (last_neg_iff xs c).mp (not_le.mp hr)
      have h0 : xs.count c = 0 := List.count_eq_zero_of_not_mem hnot
      rw [List.count_cons, h0] at h
      split_ifs at h <;> omega

theorem last_append_singleton (h : GoString) (c : Char) :
    last (h ++ [c]) c = h.length := by
  induction h with
  | nil => simp [last]
  | cons x xs ih =>
    simp [last, ih]

/-- With no `:` in the host string `net.SplitHostPort` reports an error. -/
theorem SplitHostPort_no_colon (s : GoString) (h : ':' ∉ s) :
    SplitHostPort s = .error missingPort := by
  have := (last_neg_iff s ':').mpr h
  simp [SplitHostPort, this]

/-- An unbracketed host string with two or more `:` is rejected. -/
theorem SplitHostPort_many_colons (s : GoString) (hb : s.head? ≠ some '[')
    (h : 2 ≤ s.count ':') : SplitHostPort s = .error tooManyColons := by
  have hmem : ':' ∈ s := List.count_pos_iff.mp (by omega)
  have hl : ¬ last s ':' < 0 := fun hc => (last_neg_iff s ':').mp hc hmem
  have hi : ¬ IndexByteString (slice s 0 (last s ':').toNat) ':' < 0 := by
    intro hc
    have := (IndexByteString_neg_iff _ _).mp hc
    exact this (by simpa [slice] using mem_take_last_of_two s ':' h)
  simp only [SplitHostPort, if_neg hl, if_neg hb, if_pos (not_lt.mp hi)]

/-- A host string `h:` with an empty port parses, and its port is empty. -/
theorem SplitHostPort_trailing_colon (h : GoString) (hc : ':' ∉ h) (ho : '[' ∉ h)
    (hcl : ']' ∉ h) : SplitHostPort (h ++ [':']) = .ok (h, []) := by
  have hl : last (h ++ [':']) ':' = h.length := last_append_singleton h ':'
  have hhead : ¬ (h ++ [':']).head? = some '[' := by
    cases h with
    | nil => decide
    | cons x xs =>
      simp only [List.cons_append, List.head?_cons, Option.some.injEq]
      rintro rfl
      exact ho (List.mem_cons_self _ _)
  have hi : IndexByteString h ':' < 0 := (IndexByteString_neg_iff _ _).mpr hc
  have h1 : IndexByteString (h ++ [':']) '[' < 0 :=
    (IndexByteString_neg_iff _ _).mpr (by simp [ho])
  have h2 : IndexByteString (h ++ [':']) ']' < 0 :=
    (IndexByteString_neg_iff _ _).mpr (by simp [hcl])
  have hl0 : ¬ ((h.length : Int) < 0) := by omega
  have hdrop : List.drop (h.length + 1) (h ++ [':']) = [] := by simp
  simp only [SplitHostPort, hl, if_neg hl0, if_neg hhead, slice, Int.toNat_ofNat,
    List.take_left, List.drop_zero, if_neg (not_le.mpr hi), splitFinish, sliceFrom,
    if_neg (not_le.mpr h1), if_neg (not_le.mpr h2), hdrop]

/-- C1: whenever the request Host parses to `host:port`, `protocolResolver`
returns the parsed port together with the table entry for it: `http/1.1` over
`tcp` for `8080`, `http/1.1 + TLS` over `tcp` for `8081`, `http/2` over `tcp`
for `8082`, `QUIC` over `udp` for `8083`, and the empty label over `tcp` for
every other port; and for every request the transport is `udp` exactly when
the label is `QUIC`. -/
theorem protocolResolver_table (request : Request) :
    (∀ host port, SplitHostPort request.Host = .ok (host, port) →
      (port = "8080".toList →
        protocolResolver request = ("tcp".toList, "8080".toList, "http/1.1".toList)) ∧
      (port = "8081".toList →
        protocolResolver request = ("tcp".toList, "8081".toList, "http/1.1 + TLS".toList)) ∧
      (port = "8082".toList →
        protocolResolver request = ("tcp".toList, "8082".toList, "http/2".toList)) ∧
      (port = "8083".toList →
        protocolResolver request = ("udp".toList, "8083".toList, "QUIC".toList)) ∧
      (port ≠ "8080".toList → port ≠ "8081".toList → port ≠ "8082".toList →
        port ≠ "8083".toList →
        protocolResolver request = ("tcp".toList, port, []))) ∧
    ((protocolResolver request).1 = "udp".toList ↔
      (protocolResolver request).2.2 = "QUIC".toList) := by
  constructor
  · intro host port h
    rw [protocolResolver_of_port request host port h]
    refine ⟨?_, ?_, ?_, ?_, ?_⟩
    · rintro rfl; decide
    · rintro rfl; decide
    · rintro rfl; decide
    · rintro rfl; decide
    · intro h0 h1 h2 h3
      rw [mapIndex_protocols, if_neg h0, if_neg h1, if_neg h2, if_neg h3]
      rfl
  · simp only [protocolResolver]
    split_ifs with hq
    · exact ⟨fun _ => hq, fun _ => rfl⟩
    · exact ⟨fun h => absurd h (by decide), fun h => absurd h hq⟩

/-- Witness for C1 at the Host `localhost:8083`. -/
theorem protocolResolver_table_witness :
    protocolResolver ⟨"GET".toList, "localhost:8083".toList, "/".toList, "/".toList,
        fun _ => [], none⟩ = ("udp".toList, "8083".toList, "QUIC".toList) :=
  ((protocolResolver_table ⟨"GET".toList, "localhost:8083".toList, "/".toList, "/".toList,
      fun _ => [], none⟩).1 "localhost".toList "8083".toList rfl).2.2.2.1 rfl

theorem IndexByteString_cons (x : Char) (xs : GoString) (c : Char) :
    IndexByteString (x :: xs) c =
      if x = c then 0
      else if IndexByteString xs c < 0 then -1 else IndexByteString xs c + 1 := rfl

theorem IndexByteString_append (a b : GoString) (c : Char) (h : c ∉ a) :
    IndexByteString (a ++ c :: b) c = a.length := by
  induction a with
  | nil => simp [IndexByteString]
  | cons x xs ih =>
    have hx : x ≠ c := fun e => h (e ▸ List.mem_cons_self _ _)
    have hxs : c ∉ xs := fun e => h (List.mem_cons_of_mem _ e)
    have hlen : ¬ ((xs.length : Int) < 0) := by omega
    rw [List.cons_append, IndexByteString_cons, if_neg hx, ih hxs, if_neg hlen]
    simp

/-- A bracketed host string without anything behind the bracket is rejected. -/
theorem SplitHostPort_bracket_only (h : GoString) (hcl : ']' ∉ h) :
    SplitHostPort ('[' :: h ++ [']']) = .error missingPort := by
  rw [List.cons_append]
  have he : IndexByteString ('[' :: (h ++ [']'])) ']' = (h.length : Int) + 1 := by
    have := IndexByteString_append ('[' :: h) [] ']' (by simp [hcl])
    simpa using this
  have hlen : ((('[' :: (h ++ [']'])).length : Nat) : Int) = (h.length : Int) + 1 + 1 := by
    simp
  by_cases hl : last ('[' :: (h ++ [']'])) ':' < 0
  · simp only [SplitHostPort, if_pos hl]
  · have h1 : ¬ ((h.length : Int) + 1 < 0) := by omega
    simp only [SplitHostPort, if_neg hl, List.head?_cons, if_true, he, if_neg h1, hlen]

/-- Counterexample to C6 as stated: the Host `example.com:` carries a trailing
colon and an empty port, and `protocolResolver` returns the empty port, not
`80`. -/
theorem protocolResolver_trailing_colon_not_80 :
    protocolResolver ⟨"GET".toList, "example.com:".toList, "/".toList, "/".toList,
        fun _ => [], none⟩ = ("tcp".toList, [], []) ∧
    protocolResolver ⟨"GET".toList, "example.com:".toList, "/".toList, "/".toList,
        fun _ => [], none⟩ ≠ ("tcp".toList, "80".toList, []) := by
  constructor
  · rfl
  · decide

/-- C6, amended: for every Host that `net.SplitHostPort` cannot split into
host and port, `protocolResolver` returns port `80`, the empty label and
transport `tcp`; this is the case for a Host without any `:` (a bare
hostname), for an unbracketed Host with two or more `:` (an unbracketed IPv6
literal) and for a bracketed Host with nothing behind the bracket (`[::1]`).
A Host that splits with an empty port, such as `h:` with a trailing colon,
yields the empty port, again with the empty label and transport `tcp`. -/
theorem protocolResolver_no_port (request : Request) :
    (∀ e, SplitHostPort request.Host = .error e →
      protocolResolver request = ("tcp".toList, "80".toList, [])) ∧
    (':' ∉ request.Host →
      protocolResolver request = ("tcp".toList, "80".toList, [])) ∧
    (request.Host.head? ≠ some '[' → 2 ≤ request.Host.count ':' →
      protocolResolver request = ("tcp".toList, "80".toList, [])) ∧
    (∀ h : GoString, request.Host = '[' :: h ++ [']'] → ']' ∉ h →
      protocolResolver request = ("tcp".toList, "80".toList, [])) ∧
    (∀ h : GoString, SplitHostPort request.Host = .ok (h, []) →
      protocolResolver request = ("tcp".toList, [], [])) ∧
    (∀ h : GoString, request.Host = h ++ [':'] → ':' ∉ h → '[' ∉ h → ']' ∉ h →
      protocolResolver request = ("tcp".toList, [], [])) := by
  have hempty : ∀ h : GoString, SplitHostPort request.Host = .ok (h, []) →
      protocolResolver request = ("tcp".toList, [], []) := by
    intro h hs
    rw [protocolResolver_of_port request h [] hs]
    decide
  refine ⟨fun e he => protocolResolver_of_error request e he, ?_, ?_, ?_, hempty, ?_⟩
  · intro h
    exact protocolResolver_of_error request _ (SplitHostPort_no_colon _ h)
  · intro hb h
    exact protocolResolver_of_error request _ (SplitHostPort_many_colons _ hb h)
  · intro h hH hcl
    exact protocolResolver_of_error request _ (by rw [hH]; exact SplitHostPort_bracket_only h hcl)
  · intro h hH hc ho hcl
    exact hempty h (by rw [hH]; exact SplitHostPort_trailing_colon h hc ho hcl)

/-- Witness for the amended C6: the bare hostname `example.com`, the
unbracketed literal `::1` and the bracketed literal `[::1]` all resolve to
port `80`. -/
theorem protocolResolver_no_port_witness :
    protocolResolver (plainRequest "example.com".toList "/".toList) =
      ("tcp".toList, "80".toList, []) ∧
    protocolResolver (plainRequest "::1".toList "/".toList) =
      ("tcp".toList, "80".toList, []) ∧
    protocolResolver (plainRequest "[::1]".toList "/".toList) =
      ("tcp".toList, "80".toList, []) :=
  ⟨(protocolResolver_no_port (plainRequest "example.com".toList "/".toList)).2.1 (by decide),
    (protocolResolver_no_port (plainRequest "::1".toList "/".toList)).2.2.1 (by decide)
      (by decide),
    (protocolResolver_no_port (plainRequest "[::1]".toList "/".toList)).2.2.2.1
      "::1".toList rfl (by decide)⟩

theorem Sprintf_cached (k : GoString) :
    Sprintf "cached %s".toList [k] = some ("cached ".toList ++ k) := by
  simp [Sprintf, verbModifiers]

/-- A format without `%` is written as it is. -/
theorem Sprintf_no_percent (s : GoString) (h : '%' ∉ s) : Sprintf s [] = some s := by
  induction s with
  | nil => rfl
  | cons x xs ih =>
    have hx : x ≠ '%' := fun e => h (e ▸ List.mem_cons_self _ _)
    have hxs : '%' ∉ xs := fun e => h (List.mem_cons_of_mem _ e)
    rw [Sprintf, ih hxs]
    · rfl
    all_goals
      intros
      exact hx (by assumption)

/-- What one `Fprintf` call with a `%`-free format and no operands writes to
a writer nothing was written to yet. -/
theorem body_Fprintf (w : ResponseWriter) (s : GoString) (hw : w.written = [])
    (hs : '%' ∉ s) : (w.Fprintf s []).body = some s := by
  simp [ResponseWriter.body, ResponseWriter.Fprintf, hw, renderCalls, Sprintf_no_percent s hs]

/-! ### The payload holds no `%` -/

theorem hexDigit_ne_percent (n : Nat) : hexDigit n ≠ '%' := by
  unfold hexDigit
  split <;> decide

theorem hexEncode_plain (u : Nat → Nat) (a n : Nat) : '%' ∉ hexEncode u a n := by
  induction n generalizing a with
  | zero => simp [hexEncode]
  | succ n ih =>
    simp only [hexEncode, List.mem_cons, not_or]
    exact ⟨(hexDigit_ne_percent _).symm, (hexDigit_ne_percent _).symm, ih _⟩

theorem UUIDString_plain (u : Nat → Nat) : '%' ∉ UUIDString u := by
  simp [UUIDString, hexEncode_plain]

theorem jsonEscape_plain (c : Char) (h : c ≠ '%') : '%' ∉ jsonEscape c := by
  unfold jsonEscape
  split_ifs
  · decide
  · decide
  · decide
  · decide
  · decide
  · simp only [List.mem_cons, not_or, List.mem_nil_iff, not_false_eq_true, and_true]
    exact ⟨by decide, by decide, by decide, by decide, (hexDigit_ne_percent _).symm,
      (hexDigit_ne_percent _).symm⟩
  · simp only [List.mem_cons, not_or, List.mem_nil_iff, not_false_eq_true, and_true]
    exact ⟨by decide, by decide, by decide, by decide, by decide,
      (hexDigit_ne_percent _).symm⟩
  · simp only [List.mem_singleton]
    exact fun e => h e.symm

theorem jsonString_plain (s : GoString) (h : '%' ∉ s) : '%' ∉ jsonString s := by
  have hall : '%' ∉ jsonEscapeAll s := by
    induction s with
    | nil => simp [jsonEscapeAll]
    | cons x xs ih =>
      have hx : x ≠ '%' := fun e => h (e ▸ List.mem_cons_self _ _)
      have hxs : '%' ∉ xs := fun e => h (List.mem_cons_of_mem _ e)
      simp only [jsonEscapeAll, List.mem_append, not_or]
      exact ⟨jsonEscape_plain x hx, ih hxs⟩
  simp [jsonString, hall]

theorem jsonData_plain (d : Data) (h : d.plain) : '%' ∉ jsonData d := by
  obtain ⟨h1, h2, h3⟩ := h
  simp [jsonData, jsonString_plain _ h1, jsonString_plain _ h2, jsonString_plain _ h3]

theorem jsonMembers_plain (object : List (GoString × Data)) (h : plainEntries object) :
    '%' ∉ jsonMembers object := by
  induction object with
  | nil => simp [jsonMembers]
  | cons entry rest ih =>
    obtain ⟨k, d⟩ := entry
    have hk := h (k, d) (List.mem_cons_self _ _)
    have hrest : plainEntries rest := fun e he => h e (List.mem_cons_of_mem _ he)
    have h1 := jsonString_plain _ hk.1
    have h2 := jsonData_plain _ hk.2
    cases rest with
    | nil => simp [jsonMembers, h1, h2]
    | cons e2 rest2 =>
      have := ih hrest
      simp [jsonMembers, h1, h2, this]

theorem mapAssign_plain (object : List (GoString × Data)) (k : GoString) (d : Data)
    (h : plainEntries object) (hk : '%' ∉ k) (hd : d.plain) :
    plainEntries (mapAssign object k d) := by
  induction object with
  | nil =>
    intro e he
    simp only [mapAssign, List.mem_singleton] at he
    subst he
    exact ⟨hk, hd⟩
  | cons entry rest ih =>
    obtain ⟨k1, d1⟩ := entry
    have h1 := h (k1, d1) (List.mem_cons_self _ _)
    have hrest : plainEntries rest := fun e he => h e (List.mem_cons_of_mem _ he)
    simp only [mapAssign]
    split_ifs
    · intro e he
      rcases List.mem_cons.mp he with rfl | he
      · exact ⟨hk, hd⟩
      · exact hrest e he
    · intro e he
      rcases List.mem_cons.mp he with rfl | he
      · exact ⟨hk, hd⟩
      · exact h e he
    · intro e he
      rcases List.mem_cons.mp he with rfl | he
      · exact h1
      · exact ih hrest e he

theorem fillObject_plain (g : Generator) (call n i : Nat) (object : List (GoString × Data))
    (h : plainEntries object) : plainEntries (fillObject g call n i object) := by
  induction n generalizing i object with
  | zero => exact h
  | succ n ih =>
    exact ih _ _ (mapAssign_plain _ _ _ h (UUIDString_plain _) (g.plain call i))

/-- The payload of `makeFakeJson` holds no `%`. -/
theorem makeFakeJson_plain (line_number : Nat) (g : Generator) :
    '%' ∉ (makeFakeJson line_number g).1 := by
  have : plainEntries (fillObject g g.calls line_number 0 []) :=
    fillObject_plain g _ _ _ _ (fun e he => absurd he (List.not_mem_nil e))
  simp [makeFakeJson, Marshal, jsonMembers_plain _ this]

/-! ### `strings.Replace` against the replace-all pass -/

theorem startsWith_iff (s p : GoString) : startsWith s p = true ↔ p <+: s := by
  induction p generalizing s with
  | nil => simp [startsWith]
  | cons y ys ih =>
    cases s with
    | nil => simp [startsWith]
    | cons x xs =>
      simp only [startsWith, Bool.and_eq_true, decide_eq_true_eq, ih, List.cons_prefix_cons]
      constructor
      · rintro ⟨rfl, h⟩; exact ⟨rfl, h⟩
      · rintro ⟨rfl, h⟩; exact ⟨rfl, h⟩

theorem HasPrefix_iff (s p : GoString) : HasPrefix s p = true ↔ p <+: s := by
  simp only [HasPrefix, slice, List.drop_zero, Bool.and_eq_true, decide_eq_true_eq]
  constructor
  · rintro ⟨_, h⟩
    exact List.prefix_iff_eq_take.mpr h.symm
  · intro h
    exact ⟨h.length_le, (List.prefix_iff_eq_take.mp h).symm⟩

theorem HasPrefix_eq_startsWith (s p : GoString) : HasPrefix s p = startsWith s p := by
  rw [Bool.eq_iff_iff, HasPrefix_iff, startsWith_iff]

theorem Index_nil (old : GoString) : Index [] old = if old = [] then 0 else -1 := rfl

theorem Index_cons (x : Char) (xs old : GoString) :
    Index (x :: xs) old =
      if HasPrefix (x :: xs) old then 0
      else if Index xs old < 0 then -1 else Index xs old + 1 := rfl

theorem Index_ge (s old : GoString) : Index s old = -1 ∨ 0 ≤ Index s old := by
  induction s with
  | nil => rw [Index_nil]; split_ifs <;> simp
  | cons x xs ih =>
    rw [Index_cons]
    split_ifs <;> first | simp | omega

theorem replaceAllFrom_skip (old new : GoString) (k : Nat) (s : GoString) :
    replaceAllFrom old new k s = replaceAllFrom old new 0 (s.drop k) := by
  induction s generalizing k with
  | nil => simp [replaceAllFrom]
  | cons x xs ih =>
    cases k with
    | zero => rfl
    | succ k => simp only [replaceAllFrom, List.drop_succ_cons]; exact ih k

/-- Where `old` does not occur the pass changes nothing. -/
theorem replaceAllFrom_of_Index_neg (old new s : GoString) (h : Index s old < 0) :
    replaceAllFrom old new 0 s = s := by
  induction s with
  | nil => rfl
  | cons x xs ih =>
    rw [Index_cons] at h
    split_ifs at h with hp hr
    · omega
    · have hs : startsWith (x :: xs) old = false := by
        rw [← HasPrefix_eq_startsWith]; simpa using hp
      simp only [replaceAllFrom, hs, Bool.false_eq_true, if_false, ih hr]
    · omega

/-- Where `old` first occurs at offset `j`, the pass copies `s[:j]`, writes
`new` and goes on behind the occurrence. -/
theorem replaceAllFrom_of_Index_nonneg (old new s : GoString) (hold : old ≠ [])
    (h : 0 ≤ Index s old) :
    (Index s old).toNat + old.length ≤ s.length ∧
    s = s.take (Index s old).toNat ++ old ++ s.drop ((Index s old).toNat + old.length) ∧
    replaceAllFrom old new 0 s =
      s.take (Index s old).toNat ++ new ++
        replaceAllFrom old new 0 (s.drop ((Index s old).toNat + old.length)) := by
  induction s with
  | nil =>
    rw [Index_nil, if_neg hold] at h
    omega
  | cons x xs ih =>
    have hlen : 1 ≤ old.length := by
      cases old with
      | nil => exact absurd rfl hold
      | cons _ _ => simp
    by_cases hp : HasPrefix (x :: xs) old = true
    · have hi : Index (x :: xs) old = 0 := by rw [Index_cons, if_pos hp]
      have hpre := (HasPrefix_iff _ _).mp hp
      have hs : startsWith (x :: xs) old = true := by rw [← HasPrefix_eq_startsWith]; exact hp
      rw [hi]
      refine ⟨by simpa using hpre.length_le, ?_, ?_⟩
      · obtain ⟨t, ht⟩ := hpre
        simp only [Int.toNat_zero, List.take_zero, List.nil_append, zero_add]
        rw [← ht]
        simp
      · simp only [replaceAllFrom, hs, if_true, Int.toNat_zero, List.take_zero,
          List.nil_append, zero_add]
        rw [replaceAllFrom_skip]
        congr 2
        obtain ⟨n, hn⟩ : ∃ n, old.length = n + 1 := ⟨old.length - 1, by omega⟩
        rw [hn]
        simp
    · have hr : ¬ Index xs old < 0 := by
        intro hr
        rw [Index_cons, if_neg hp, if_pos hr] at h
        omega
      have hi : Index (x :: xs) old = Index xs old + 1 := by
        rw [Index_cons, if_neg hp, if_neg hr]
      have h0 : 0 ≤ Index xs old := not_lt.mp hr
      obtain ⟨h1, h2, h3⟩ := ih h0
      have ht : (Index xs old + 1).toNat = (Index xs old).toNat + 1 := by omega
      have hs : startsWith (x :: xs) old = false := by
        rw [← HasPrefix_eq_startsWith]; simpa using hp
      rw [hi, ht]
      refine ⟨by simp only [List.length_cons]; omega, ?_, ?_⟩
      · have : (Index xs old).toNat + 1 + old.length =
            ((Index xs old).toNat + old.length) + 1 := by
          omega
        rw [this, List.take_succ_cons, List.drop_succ_cons, List.cons_append, List.cons_append,
          ← h2]
      · have : (Index xs old).toNat + 1 + old.length =
            ((Index xs old).toNat + old.length) + 1 := by
          omega
        rw [this, List.take_succ_cons, List.drop_succ_cons]
        simp only [replaceAllFrom, hs, Bool.false_eq_true, if_false, List.cons_append]
        rw [h3]

theorem countLoop_acc (old : GoString) (fuel : Nat) (s : GoString) (n : Nat) :
    countLoop old fuel s n = n + countLoop old fuel s 0 := by
  induction fuel generalizing s n with
  | zero => simp [countLoop]
  | succ fuel ih =>
    simp only [countLoop]
    split_ifs
    · simp
    · rw [ih _ (n + 1), ih _ (0 + 1)]
      omega

/-- With enough rounds allowed, the counting loop followed by the replacement
loop of `strings.Replace` is the replace-all pass. -/
theorem replaceLoop_countLoop (old new : GoString) (hold : old ≠ []) (fuel : Nat)
    (s : GoString) (first : Bool) (hfuel : s.length < fuel) :
    replaceLoop old new (countLoop old fuel s 0) first s = replaceAllFrom old new 0 s := by
  have hlen : old.length ≠ 0 := by
    cases old with
    | nil => exact absurd rfl hold
    | cons _ _ => simp
  induction fuel generalizing s first with
  | zero => omega
  | succ fuel ih =>
    rcases Index_ge s old with hi | hi
    · simp only [countLoop, hi, if_true, replaceLoop]
      exact (replaceAllFrom_of_Index_neg old new s (by omega)).symm
    · have hne : Index s old ≠ -1 := by omega
      obtain ⟨h1, _, h3⟩ := replaceAllFrom_of_Index_nonneg old new s hold hi
      have hshort : (s.drop ((Index s old).toNat + old.length)).length < fuel := by
        rw [List.length_drop]
        omega
      simp only [countLoop, hne, if_false, sliceFrom]
      rw [countLoop_acc, Nat.add_comm, replaceLoop]
      simp only [hlen, if_false, slice, List.drop_zero, sliceFrom]
      rw [ih _ false hshort, h3]

/-- Replacing `old` by itself changes nothing. -/
theorem replaceAllFrom_self (old : GoString) (hold : old ≠ []) (n : Nat) (s : GoString)
    (hn : s.length < n) : replaceAllFrom old old 0 s = s := by
  induction n generalizing s with
  | zero => omega
  | succ n ih =>
    rcases Index_ge s old with hi | hi
    · exact replaceAllFrom_of_Index_neg old old s (by omega)
    · obtain ⟨h1, h2, h3⟩ := replaceAllFrom_of_Index_nonneg old old s hold hi
      have hlen : 1 ≤ old.length := by
        cases old with
        | nil => exact absurd rfl hold
        | cons _ _ => simp
      have hshort : (s.drop ((Index s old).toNat + old.length)).length < n := by
        rw [List.length_drop]
        omega
      rw [h3, ih _ hshort]
      exact h2.symm

/-- Go's `strings.Replace(s, old, new, -1)` with an `old` of at least two
characters is the replace-all pass. -/
theorem Replace_eq_replaceAll (s old new : GoString) (hold : 2 ≤ old.length) :
    Replace s old new (-1) = replaceAll old new s := by
  have hne : old ≠ [] := by
    rintro rfl
    simp at hold
  have hcount : Count s old = countLoop old (s.length + 1) s 0 := by
    match old, hold with
    | _ :: _ :: _, _ => rfl
  unfold Replace replaceAll
  by_cases heq : old = new
  · subst heq
    simp only [true_or, if_true]
    exact (replaceAllFrom_self old hne (s.length + 1) s (by omega)).symm
  · have hm := replaceLoop_countLoop old new hne (s.length + 1) s true (by omega)
    have hn : ¬ (old = new ∨ (-1 : Int) = 0) := by
      rintro (h | h)
      · exact heq h
      · omega
    simp only [if_neg hn, hcount]
    by_cases h0 : countLoop old (s.length + 1) s 0 = 0
    · rw [if_pos h0]
      rw [h0] at hm
      simpa [replaceLoop] using hm
    · rw [if_neg h0]
      simpa using hm

/-! ### The cache and `jsonCacher` -/

theorem TrimPrefix_append (p rest : GoString) : TrimPrefix (p ++ rest) p = rest := by
  have h : HasPrefix (p ++ rest) p = true := (HasPrefix_iff _ _).mpr (List.prefix_append _ _)
  simp [TrimPrefix, h, sliceFrom]

theorem TrimPrefix_of_not_prefix (s p : GoString) (h : ¬ p <+: s) : TrimPrefix s p = s := by
  have hp : ¬ HasPrefix s p = true := fun hp => h ((HasPrefix_iff _ _).mp hp)
  simp [TrimPrefix, hp]

theorem Cache.Get_of_items (c : Cache) (k : GoString) (x : CacheValue) (e later : Int)
    (hitem : c.items k = some ⟨x, e⟩) (hlive : ¬ (0 < e ∧ e < later)) :
    c.Get k later = some x := by
  simp only [Cache.Get, hitem, if_neg hlive]

theorem Cache.Get_Set_same (c : Cache) (k : GoString) (x : CacheValue) (now later : Int)
    (h : 0 < c.defaultExpiration → later ≤ now + c.defaultExpiration) :
    (c.Set k x DefaultExpiration now).Get k later = some x := by
  simp only [Cache.Get, Cache.Set, if_true]
  by_cases hd : 0 < c.defaultExpiration
  · have := h hd
    rw [if_pos hd, if_neg (by omega)]
  · rw [if_neg hd, if_neg (by omega)]

theorem Cache.Set_items_other (c : Cache) (k k' : GoString) (x : CacheValue) (d now : Int)
    (h : k' ≠ k) : (c.Set k x d now).items k' = c.items k' := by
  simp [Cache.Set, h]

/-- The key `jsonCacher` stores under: the URI behind a leading `/cache`, or
the whole URI when it does not start with `/cache`. -/
theorem jsonCacher_key (request : Request) (k : GoString)
    (hk : request.RequestURI = "/cache".toList ++ k ∨
      (¬ "/cache".toList <+: request.RequestURI ∧ k = request.RequestURI)) :
    TrimPrefix request.RequestURI "/cache".toList = k := by
  rcases hk with h | ⟨h1, h2⟩
  · rw [h, TrimPrefix_append]
  · rw [h2, TrimPrefix_of_not_prefix _ _ h1]

/-- C3: let `k` be what is left of the request URI when the leading `/cache`
is taken off (the URI itself when it does not start with `/cache`).  Then
`jsonCacher` draws one fresh payload from the generator whatever the cache
held before; afterwards the cache maps `k` to that payload, a lookup of `k`
finds it, every other key is unchanged, the handler makes the single call
`Fprintf(response, "cached %s", k)`, and the body written to a fresh response
is exactly `cached ` followed by `k`. -/
theorem jsonCacher_stores (st : Server) (now : Int) (response : ResponseWriter)
    (request : Request) (k : GoString)
    (hk : request.RequestURI = "/cache".toList ++ k ∨
      (¬ "/cache".toList <+: request.RequestURI ∧ k = request.RequestURI)) :
    (jsonCacher st now response request).1.generator.calls = st.generator.calls + 1 ∧
    (∃ e, (jsonCacher st now response request).1.inmem_cache.items k =
      some ⟨.str (makeFakeJson json_size_strings st.generator).1, e⟩) ∧
    (jsonCacher st now response request).1.inmem_cache.Get k now =
      some (.str (makeFakeJson json_size_strings st.generator).1) ∧
    (∀ k1, k1 ≠ k →
      (jsonCacher st now response request).1.inmem_cache.items k1 = st.inmem_cache.items k1) ∧
    (jsonCacher st now response request).2.written =
      response.written ++ [⟨"cached %s".toList, [k]⟩] ∧
    (jsonCacher st now ResponseWriter.fresh request).2.body = some ("cached ".toList ++ k) := by
  have hkey := jsonCacher_key request k hk
  refine ⟨rfl, ⟨if 0 < st.inmem_cache.defaultExpiration then
      now + st.inmem_cache.defaultExpiration else 0, ?_⟩, ?_, ?_, ?_, ?_⟩
  · simp only [jsonCacher, hkey, Cache.Set, DefaultExpiration, if_true]
  · have := Cache.Get_Set_same st.inmem_cache k
      (.str (makeFakeJson json_size_strings st.generator).1) now now (fun h => by omega)
    simpa only [jsonCacher, hkey] using this
  · intro k1 hk1
    have := Cache.Set_items_other st.inmem_cache k k1
      (.str (makeFakeJson json_size_strings st.generator).1) DefaultExpiration now hk1
    simpa only [jsonCacher, hkey] using this
  · simp only [jsonCacher, hkey, ResponseWriter.Fprintf]
  · simp only [jsonCacher, hkey, ResponseWriter.body, ResponseWriter.Fprintf,
      ResponseWriter.fresh, List.nil_append, renderCalls, Sprintf_cached]
    simp

/-- Witness for C3: the request `/cache/foo` on the freshly created cache is
stored under `/foo` and answered with `cached /foo`. -/
theorem jsonCacher_stores_witness :
    (∃ e, (jsonCacher initialServer 0 ResponseWriter.fresh
        (plainRequest "localhost:8080".toList "/cache/foo".toList)).1.inmem_cache.items
        "/foo".toList =
      some ⟨.str (makeFakeJson json_size_strings initialServer.generator).1, e⟩) ∧
    (jsonCacher initialServer 0 ResponseWriter.fresh
        (plainRequest "localhost:8080".toList "/cache/foo".toList)).2.body =
      some "cached /foo".toList :=
  ⟨(jsonCacher_stores initialServer 0 ResponseWriter.fresh
      (plainRequest "localhost:8080".toList "/cache/foo".toList) "/foo".toList
      (Or.inl rfl)).2.1,
    (jsonCacher_stores initialServer 0 ResponseWriter.fresh
      (plainRequest "localhost:8080".toList "/cache/foo".toList) "/foo".toList
      (Or.inl rfl)).2.2.2.2.2⟩

/-- Counterexample to C4 as stated: after `/cache/foo` is handled on an empty
cache, the key `foo` is not found; the payload sits under `/foo`. -/
theorem jsonCacher_foo_not_found :
    (jsonCacher initialServer 0 ResponseWriter.fresh
        (plainRequest "localhost:8080".toList "/cache/foo".toList)).1.inmem_cache.Get
      "foo".toList 0 = none := by
  rfl

/-- C4, amended: after a request with URI `/cache/foo` is handled by
`jsonCacher` at clock `now`, a lookup `Get("/foo")` at a clock `later` before
the entry expires reports found and returns exactly the payload the handler
drew from the generator and stored. -/
theorem jsonCacher_then_Get (st : Server) (now later : Int) (response : ResponseWriter)
    (request : Request) (huri : request.RequestURI = "/cache/foo".toList)
    (hlive : 0 < st.inmem_cache.defaultExpiration →
      later ≤ now + st.inmem_cache.defaultExpiration) :
    (jsonCacher st now response request).1.inmem_cache.Get "/foo".toList later =
      some (.str (makeFakeJson json_size_strings st.generator).1) := by
  have hk : TrimPrefix request.RequestURI "/cache".toList = "/foo".toList := by
    rw [huri]; decide
  show (st.inmem_cache.Set (TrimPrefix request.RequestURI "/cache".toList) _
    DefaultExpiration now).Get "/foo".toList later = _
  rw [hk]
  exact Cache.Get_Set_same _ _ _ _ _ hlive

/-- Witness for the amended C4: one minute after the store. -/
theorem jsonCacher_then_Get_witness :
    (jsonCacher initialServer 0 ResponseWriter.fresh
        (plainRequest "localhost:8080".toList "/cache/foo".toList)).1.inmem_cache.Get
      "/foo".toList Minute =
      some (.str (makeFakeJson json_size_strings initialServer.generator).1) :=
  jsonCacher_then_Get initialServer 0 Minute ResponseWriter.fresh
    (plainRequest "localhost:8080".toList "/cache/foo".toList) rfl (by decide)

/-! ### `jsonStubber` -/

/-- The hit branch of `jsonStubber`: the state is returned as it was and the
cached string is the format of the one `Fprintf` call. -/
theorem jsonStubber_hit (st : Server) (now : Int) (response : ResponseWriter)
    (request : Request) (s : GoString)
    (h : st.inmem_cache.Get request.RequestURI now = some (.str s)) :
    jsonStubber st now response request =
      some (st,
        (if request.Header.Get "Purpose".toList = "prefetch".toList then
          { response with
            header := response.header.Add "Cache-Control".toList
              ("private, max-age=".toList ++ cache_seconds) }
        else response).Fprintf s []) := by
  simp only [jsonStubber, h]

/-- The miss branch of `jsonStubber`: one generator call, the cache as it was,
and the payload as the format of the one `Fprintf` call. -/
theorem jsonStubber_miss (st : Server) (now : Int) (response : ResponseWriter)
    (request : Request) (h : st.inmem_cache.Get request.RequestURI now = none) :
    jsonStubber st now response request =
      some ({ st with generator := (makeFakeJson json_size_strings st.generator).2 },
        (if request.Header.Get "Purpose".toList = "prefetch".toList then
          { response with
            header := response.header.Add "Cache-Control".toList
              ("private, max-age=".toList ++ cache_seconds) }
        else response).Fprintf (makeFakeJson json_size_strings st.generator).1 []) := by
  simp only [jsonStubber, h]

/-- The body after the header step and the one `Fprintf` call. -/
theorem body_after_header (request : Request) (response : ResponseWriter) (s : GoString)
    (hw : response.written = []) (hs : '%' ∉ s) :
    ((if request.Header.Get "Purpose".toList = "prefetch".toList then
        { response with
          header := response.header.Add "Cache-Control".toList
            ("private, max-age=".toList ++ cache_seconds) }
      else response).Fprintf s []).body = some s := by
  split_ifs <;> exact body_Fprintf _ s hw hs

/-- `jsonStubber` never stores anything. -/
theorem jsonStubber_cache (st st1 : Server) (now : Int) (response response1 : ResponseWriter)
    (request : Request) (h : jsonStubber st now response request = some (st1, response1)) :
    st1.inmem_cache = st.inmem_cache := by
  cases hget : st.inmem_cache.Get request.RequestURI now with
  | none =>
    rw [jsonStubber_miss st now response request hget] at h
    cases h
    rfl
  | some v =>
    cases v with
    | str s =>
      rw [jsonStubber_hit st now response request s hget] at h
      cases h
      rfl
    | other tag => simp [jsonStubber, hget] at h

theorem Cache.Set_plain (c : Cache) (k s : GoString) (d now : Int) (hc : c.plain)
    (hs : '%' ∉ s) : (c.Set k (.str s) d now).plain := by
  intro key item hitem
  by_cases hk : key = k
  · simp only [Cache.Set, if_pos hk, Option.some.injEq] at hitem
    rw [← hitem]
    exact ⟨s, rfl, hs⟩
  · simp only [Cache.Set, if_neg hk] at hitem
    exact hc key item hitem

theorem Cache.DeleteExpired_plain (c : Cache) (now : Int) (hc : c.plain) :
    (c.DeleteExpired now).plain := by
  intro key item hitem
  simp only [Cache.DeleteExpired] at hitem
  cases hprev : c.items key with
  | none => simp [hprev] at hitem
  | some prev =>
    simp only [hprev] at hitem
    split_ifs at hitem
    cases hitem
    exact hc key _ hprev

/-- In every state the program reaches the cache holds only strings without
`%`: the payloads `jsonCacher` stored. -/
theorem Reachable.plain {st : Server} (h : Reachable st) : st.inmem_cache.plain := by
  induction h with
  | start g =>
    intro k item hitem
    simp [Cache.New] at hitem
  | cacher now response request _ ih =>
    exact Cache.Set_plain _ _ _ _ _ ih (makeFakeJson_plain _ _)
  | stubber now response response1 request _ hstep ih =>
    rw [jsonStubber_cache _ _ _ _ _ _ hstep]
    exact ih
  | sweep now _ ih => exact Cache.DeleteExpired_plain _ _ ih

/-- C2: in every state the program reaches, `jsonStubber` on a fresh response
does the following.  If the cache holds an unexpired string under the exact
request URI, the call returns the state as it was (no generator call, same
cache) and the body written is exactly that string.  If the cache holds
nothing under the URI, or only an expired entry, the body is exactly the
payload of `makeFakeJson(500)`, the generator was called once and the cache is
as it was.  Every value the cache holds is a string, so one of the two cases
applies. -/
theorem jsonStubber_body (st : Server) (hreach : Reachable st) (now : Int)
    (request : Request) :
    (∀ s e, st.inmem_cache.items request.RequestURI = some ⟨.str s, e⟩ →
      ¬ (0 < e ∧ e < now) →
      ∃ r, jsonStubber st now ResponseWriter.fresh request = some (st, r) ∧
        r.body = some s) ∧
    ((st.inmem_cache.items request.RequestURI = none ∨
        ∃ item, st.inmem_cache.items request.RequestURI = some item ∧
          0 < item.Expiration ∧ item.Expiration < now) →
      ∃ st1 r, jsonStubber st now ResponseWriter.fresh request = some (st1, r) ∧
        r.body = some (makeFakeJson json_size_strings st.generator).1 ∧
        st1.inmem_cache = st.inmem_cache ∧
        st1.generator.calls = st.generator.calls + 1) ∧
    (∀ k item, st.inmem_cache.items k = some item → ∃ s, item.Object = .str s) := by
  have hplain := hreach.plain
  refine ⟨?_, ?_, ?_⟩
  · intro s e hitem hlive
    have hget := Cache.Get_of_items _ _ _ _ now hitem hlive
    obtain ⟨s1, hs1, hfree⟩ := hplain _ _ hitem
    cases hs1
    exact ⟨_, jsonStubber_hit st now _ request s hget,
      body_after_header request _ s rfl hfree⟩
  · intro hmiss
    have hget : st.inmem_cache.Get request.RequestURI now = none := by
      rcases hmiss with h | ⟨item, h, hexp⟩
      · simp only [Cache.Get, h]
      · simp only [Cache.Get, h, if_pos hexp]
    exact ⟨_, _, jsonStubber_miss st now _ request hget,
      body_after_header request _ _ rfl (makeFakeJson_plain _ _), rfl, rfl⟩
  · intro k item hitem
    obtain ⟨s, hs, _⟩ := hplain k item hitem
    exact ⟨s, hs⟩

/-- Witness for C2: the request `/json` on the freshly created cache misses,
and the body is the generated payload. -/
theorem jsonStubber_body_witness :
    ∃ st1 r, jsonStubber initialServer 0 ResponseWriter.fresh
        (plainRequest "localhost:8080".toList "/json".toList) = some (st1, r) ∧
      r.body = some (makeFakeJson json_size_strings initialServer.generator).1 ∧
      st1.inmem_cache = initialServer.inmem_cache ∧
      st1.generator.calls = initialServer.generator.calls + 1 :=
  (jsonStubber_body initialServer (Reachable.start sampleGenerator) 0
    (plainRequest "localhost:8080".toList "/json".toList)).2.1 (Or.inl rfl)

/-- C10: let `jsonCacher` handle a URI `/cache` followed by `rest` at clock
`now`, and let `jsonStubber` later handle the URI `rest` in a state whose
entry under `rest` is still the one stored (no overwrite), before it expires.
Then the lookup hits, `jsonStubber` returns the state as it was (no generator
call), hands the stored payload to `Fprintf`, and the body written is exactly
the payload `jsonCacher` generated and stored. -/
theorem jsonStubber_after_jsonCacher (st st2 : Server) (now later : Int)
    (response : ResponseWriter) (cacheRequest request : Request) (rest : GoString)
    (hu : cacheRequest.RequestURI = "/cache".toList ++ rest)
    (hr : request.RequestURI = rest)
    (hkept : st2.inmem_cache.items rest =
      (jsonCacher st now response cacheRequest).1.inmem_cache.items rest)
    (hlive : 0 < st.inmem_cache.defaultExpiration →
      later ≤ now + st.inmem_cache.defaultExpiration) :
    st2.inmem_cache.Get request.RequestURI later =
      some (.str (makeFakeJson json_size_strings st.generator).1) ∧
    ∃ r, jsonStubber st2 later ResponseWriter.fresh request = some (st2, r) ∧
      r.written = [⟨(makeFakeJson json_size_strings st.generator).1, []⟩] ∧
      r.body = some (makeFakeJson json_size_strings st.generator).1 := by
  have hkey : TrimPrefix cacheRequest.RequestURI "/cache".toList = rest := by
    rw [hu, TrimPrefix_append]
  have hstored : (jsonCacher st now response cacheRequest).1.inmem_cache.Get rest later =
      some (.str (makeFakeJson json_size_strings st.generator).1) := by
    have := Cache.Get_Set_same st.inmem_cache rest
      (.str (makeFakeJson json_size_strings st.generator).1) now later hlive
    simpa only [jsonCacher, hkey] using this
  have hget : st2.inmem_cache.Get request.RequestURI later =
      some (.str (makeFakeJson json_size_strings st.generator).1) := by
    rw [hr, ← hstored]
    simp only [Cache.Get, hkept]
  refine ⟨hget, _, jsonStubber_hit st2 later _ request _ hget, ?_,
    body_after_header request _ _ rfl (makeFakeJson_plain _ _)⟩
  split_ifs <;> rfl

/-- Witness for C10: `/cache/json` is handled on the freshly created cache and
`/json` one minute later. -/
theorem jsonStubber_after_jsonCacher_witness :
    ∃ r, jsonStubber
        (jsonCacher initialServer 0 ResponseWriter.fresh
          (plainRequest "localhost:8080".toList "/cache/json".toList)).1
        Minute ResponseWriter.fresh (plainRequest "localhost:8080".toList "/json".toList) =
        some ((jsonCacher initialServer 0 ResponseWriter.fresh
          (plainRequest "localhost:8080".toList "/cache/json".toList)).1, r) ∧
      r.written = [⟨(makeFakeJson json_size_strings initialServer.generator).1, []⟩] ∧
      r.body = some (makeFakeJson json_size_strings initialServer.generator).1 :=
  (jsonStubber_after_jsonCacher initialServer
    (jsonCacher initialServer 0 ResponseWriter.fresh
      (plainRequest "localhost:8080".toList "/cache/json".toList)).1
    0 Minute ResponseWriter.fresh
    (plainRequest "localhost:8080".toList "/cache/json".toList)
    (plainRequest "localhost:8080".toList "/json".toList) "/json".toList rfl rfl rfl
    (by decide)).2

theorem Header.Get_eq_iff (h : Header) (key v : GoString) (hv : v ≠ []) :
    h.Get key = v ↔ ∃ more, h key = v :: more := by
  unfold Header.Get
  cases hk : h key with
  | nil =>
    constructor
    · intro e; exact absurd e.symm hv
    · rintro ⟨more, e⟩; cases e
  | cons x more =>
    constructor
    · rintro rfl; exact ⟨more, rfl⟩
    · rintro ⟨_, e⟩; cases e; rfl

/-- Counterexample to C5 as stated: a request that carries `Purpose: other`
and then `Purpose: prefetch` carries a `Purpose` header whose value is
`prefetch`, and the response has no `Cache-Control` value. -/
theorem jsonStubber_second_purpose_ignored :
    "prefetch".toList ∈ secondPrefetchRequest.Header "Purpose".toList ∧
    ∃ st1 r, jsonStubber initialServer 0 ResponseWriter.fresh secondPrefetchRequest =
        some (st1, r) ∧
      r.header "Cache-Control".toList = [] := by
  refine ⟨by decide, _, _, jsonStubber_miss initialServer 0 _ secondPrefetchRequest rfl, ?_⟩
  rfl

/-- C5, amended: when the writer has no `Cache-Control` value yet and the
cached value, if there is one, is a string, `jsonStubber` returns, and its
response carries `Cache-Control: private, max-age=60` exactly when the first
`Purpose` value of the request is `prefetch`: in that case the field is that
one value, and otherwise the response header is left as it was.  The
statement does not depend on whether the lookup hits or misses. -/
theorem jsonStubber_cache_control (st : Server) (now : Int) (response : ResponseWriter)
    (request : Request) (hfresh : response.header "Cache-Control".toList = [])
    (hstr : ∀ tag, st.inmem_cache.Get request.RequestURI now ≠ some (.other tag)) :
    ∃ st1 r, jsonStubber st now response request = some (st1, r) ∧
      ((∃ more, request.Header "Purpose".toList = "prefetch".toList :: more) →
        r.header "Cache-Control".toList = ["private, max-age=60".toList]) ∧
      ((¬ ∃ more, request.Header "Purpose".toList = "prefetch".toList :: more) →
        r.header = response.header) ∧
      ("private, max-age=60".toList ∈ r.header "Cache-Control".toList ↔
        ∃ more, request.Header "Purpose".toList = "prefetch".toList :: more) := by
  have hiff := Header.Get_eq_iff request.Header "Purpose".toList "prefetch".toList (by decide)
  have key : ∀ page : GoString,
      let r := (if request.Header.Get "Purpose".toList = "prefetch".toList then
          { response with
            header := response.header.Add "Cache-Control".toList
              ("private, max-age=".toList ++ cache_seconds) }
        else response).Fprintf page []
      ((∃ more, request.Header "Purpose".toList = "prefetch".toList :: more) →
        r.header "Cache-Control".toList = ["private, max-age=60".toList]) ∧
      ((¬ ∃ more, request.Header "Purpose".toList = "prefetch".toList :: more) →
        r.header = response.header) ∧
      ("private, max-age=60".toList ∈ r.header "Cache-Control".toList ↔
        ∃ more, request.Header "Purpose".toList = "prefetch".toList :: more) := by
    intro page
    rw [← hiff]
    by_cases hp : request.Header.Get "Purpose".toList = "prefetch".toList
    · have hv : "private, max-age=".toList ++ cache_seconds = "private, max-age=60".toList := by
        decide
      simp only [if_pos hp, ResponseWriter.Fprintf, Header.Add, if_true, hfresh, hv,
        List.nil_append, List.mem_singleton, true_iff, hp, ne_eq, not_true_eq_false,
        false_implies, implies_true, and_self, true_implies]
    · simp only [if_neg hp, if_false, ResponseWriter.Fprintf, hfresh, List.not_mem_nil, hp,
        ne_eq, not_false_eq_true, false_implies, implies_true, and_self, iff_self,
        true_implies]
  cases hget : st.inmem_cache.Get request.RequestURI now with
  | none => exact ⟨_, _, jsonStubber_miss st now response request hget, key _⟩
  | some v =>
    cases v with
    | str s => exact ⟨_, _, jsonStubber_hit st now response request s hget, key _⟩
    | other tag => exact absurd hget (hstr tag)

/-- Witness for the amended C5: a request with the single header
`Purpose: prefetch` gets `Cache-Control: private, max-age=60`. -/
theorem jsonStubber_cache_control_witness :
    ∃ st1 r, jsonStubber initialServer 0 ResponseWriter.fresh prefetchRequest =
        some (st1, r) ∧
      r.header "Cache-Control".toList = ["private, max-age=60".toList] :=
  match jsonStubber_cache_control initialServer 0 ResponseWriter.fresh prefetchRequest
    rfl (fun _ h => nomatch h) with
  | ⟨st1, r, hrun, hset, _, _⟩ => ⟨st1, r, hrun, hset ⟨[], rfl⟩⟩

/-! ### `standaloneDemoPageHandler` -/

theorem Index_append_nonneg (a b old : GoString) : 0 ≤ Index (a ++ old ++ b) old := by
  induction a with
  | nil =>
    cases hcase : old ++ b with
    | nil =>
      obtain ⟨rfl, rfl⟩ := List.append_eq_nil.mp hcase
      decide
    | cons x xs =>
      have hp : HasPrefix (x :: xs) old = true := by
        rw [HasPrefix_iff, ← hcase]
        exact List.prefix_append _ _
      simp [hcase, Index_cons, hp]
  | cons x xs ih =>
    simp only [List.cons_append, Index_cons]
    split_ifs <;> omega

theorem loadPage_html (fs : GoString → Option GoString) (name template : GoString)
    (h : fs (name ++ ".html".toList) = some template) :
    loadPage fs (name ++ ".html".toList) = some ⟨name ++ ".html".toList, template⟩ := by
  have hc : Contains (name ++ ".html".toList) ".".toList = true := by
    have := Index_append_nonneg name "html".toList ".".toList
    simpa [Contains] using this
  simp only [loadPage, hc, Bool.not_true, Bool.false_eq_true, if_false, h]

theorem schemeResolver_eq (request : Request) :
    schemeResolver request =
      match request.TLS with
      | some _ => "https".toList
      | none => "http".toList := rfl

/-- The chain of `strings.Replace` calls is the substitution in six
successive replace-all passes. -/
theorem fillTemplate_eq (page : GoString) (request : Request) :
    fillTemplate page request = substituteInTurn (placeholderValues request) page := by
  have hd : Itoa json_delay_ms = "1000".toList := by decide
  simp only [fillTemplate, substituteInTurn, placeholderValues, List.foldl, hd,
    schemeResolver_eq]
  rw [Replace_eq_replaceAll _ _ _ (by decide), Replace_eq_replaceAll _ _ _ (by decide),
    Replace_eq_replaceAll _ _ _ (by decide), Replace_eq_replaceAll _ _ _ (by decide),
    Replace_eq_replaceAll _ _ _ (by decide), Replace_eq_replaceAll _ _ _ (by decide)]

set_option maxRecDepth 20000 in
/-- Counterexample to C8 as stated: for the template `$sch$protocol$eme$` and
the Host `localhost` the only placeholder occurrence is `$protocol$`, whose
value is the empty label, so the substitution the claim describes leaves
`$scheme$`; the handler hands `http` to the response writer. -/
theorem standaloneDemoPageHandler_rescans :
    standaloneDemoPageHandler (demoFiles "$sch$protocol$eme$".toList) ResponseWriter.fresh
        (plainRequest "localhost".toList "/demo".toList) =
      .done (ResponseWriter.fresh.Fprintf "http".toList []) ∧
    substituteOnce (placeholderValues (plainRequest "localhost".toList "/demo".toList)) 0
      "$sch$protocol$eme$".toList = "$scheme$".toList := by
  constructor
  · rfl
  · rfl

/-- C8, amended: when the request URI starts with a one-byte character and
the file named by the rest of the URI followed by `.html` is read
successfully, `standaloneDemoPageHandler` makes one `Fprintf` call whose
format is the template after six successive replace-all passes, in the order
`$transport$`, `$port$`, `$protocol$`, `$hostname$`, `$scheme$`,
`$data_delay$`, with the resolver's transport, port and label, the request
Host, the scheme (`https` when the request has TLS state, else `http`) and
`1000`; each pass works on the output of the pass before it.  When that text
holds no `%`, the body written to a fresh response is exactly that text. -/
theorem standaloneDemoPageHandler_page (fs : GoString → Option GoString)
    (response : ResponseWriter) (request : Request) (c : Char) (rest template : GoString)
    (huri : request.RequestURI = c :: rest) (hascii : c.toNat < 128)
    (hfile : fs (rest ++ ".html".toList) = some template) :
    standaloneDemoPageHandler fs response request =
      .done (response.Fprintf (substituteInTurn (placeholderValues request) template) []) ∧
    ('%' ∉ substituteInTurn (placeholderValues request) template →
      response.written = [] →
      (response.Fprintf (substituteInTurn (placeholderValues request) template) []).body =
        some (substituteInTurn (placeholderValues request) template)) := by
  have hc : ¬ 128 ≤ c.toNat := by omega
  constructor
  · simp only [standaloneDemoPageHandler, huri, if_neg hc, loadPage_html fs _ template hfile,
      fillTemplate_eq]
  · intro hfree hw
    exact body_Fprintf _ _ hw hfree

set_option maxRecDepth 20000 in
/-- Witness for the amended C8: the template
`<p>$scheme$://$hostname$ $protocol$</p>` served as `/demo` over TLS on
`localhost:8081`. -/
theorem standaloneDemoPageHandler_page_witness :
    standaloneDemoPageHandler (demoFiles "<p>$scheme$://$hostname$ $protocol$</p>".toList)
        ResponseWriter.fresh (tlsRequest "localhost:8081".toList "/demo".toList) =
      .done (ResponseWriter.fresh.Fprintf
        "<p>https://localhost:8081 http/1.1 + TLS</p>".toList []) :=
  (standaloneDemoPageHandler_page
    (demoFiles "<p>$scheme$://$hostname$ $protocol$</p>".toList) ResponseWriter.fresh
    (tlsRequest "localhost:8081".toList "/demo".toList) '/' "demo".toList
    "<p>$scheme$://$hostname$ $protocol$</p>".toList rfl (by decide) rfl).1

/-! ### `main` -/

theorem main_of_cert_unreadable (readFile : GoString → Option ByteSlice)
    (listener : GoString → Option GoString)
    (h : readFile "ssl/server.crt".toList = none) :
    main readFile listener =
      ([ .cacheNew, .println ["Listening on ports: 8080-8083".toList],
          .readFile "ssl/server.crt".toList ], .panicked) := by
  simp only [main, getSslFiles, getCertBody, h]

theorem main_of_cert_readable (readFile : GoString → Option ByteSlice)
    (listener : GoString → Option GoString) (body : ByteSlice)
    (h : readFile "ssl/server.crt".toList = some body) (hcap : 50 ≤ body.cap) :
    main readFile listener =
      ([ .cacheNew, .println ["Listening on ports: 8080-8083".toList],
          .readFile "ssl/server.crt".toList ] ++
        [ .println ["Using cert from:".toList, "ssl/server.crt".toList, "\n".toList,
            slice body.array 0 50, "...".toList] ] ++
        routes.map .handle ++
        [ .goListenAndServe ":8080".toList,
          .goListenAndServeTLS ":8082".toList "ssl/server.crt".toList "ssl/server.key".toList,
          .goServerListenAndServeTLS ":8081".toList "ssl/server.crt".toList
            "ssl/server.key".toList,
          .setLogLevel,
          .callListenAndServeQUIC ":8083".toList "ssl/server.crt".toList
            "ssl/server.key".toList ],
        match listener ":8083".toList with
        | none => .blocked
        | some _ => .returned) := by
  have hc : ¬ body.cap < 50 := by omega
  simp only [main, getSslFiles, getCertBody, h, if_neg hc]
  cases listener ":8083".toList <;> rfl

/-- Counterexample to C7 as stated: with a readable certificate and an
unreadable private key, `main` does not abort; it issues all four
listener-start actions and returns only when the QUIC call gives up. -/
theorem main_key_unreadable_starts_listeners :
    certOnly "ssl/server.key".toList = none ∧
    (main certOnly keylessListeners).1.filterMap Action.listenerAddr =
      [":8080".toList, ":8082".toList, ":8081".toList, ":8083".toList] ∧
    (main certOnly keylessListeners).2 = .returned := by
  refine ⟨rfl, ?_, ?_⟩ <;> rfl

/-- C7, amended: if reading the certificate file fails, `main` panics before
issuing any listener-start action.  `main` itself never reads the private-key
file: its actions and its end depend on the file system only through the
certificate file, so a failed private-key read does not stop it. -/
theorem main_cert_unreadable (readFile : GoString → Option ByteSlice)
    (listener : GoString → Option GoString) :
    (readFile "ssl/server.crt".toList = none →
      (main readFile listener).2 = .panicked ∧
      (main readFile listener).1.filterMap Action.listenerAddr = []) ∧
    (∀ readFile' : GoString → Option ByteSlice,
      readFile' "ssl/server.crt".toList = readFile "ssl/server.crt".toList →
      main readFile' listener = main readFile listener) := by
  constructor
  · intro h
    rw [main_of_cert_unreadable readFile listener h]
    exact ⟨rfl, rfl⟩
  · intro readFile' h
    simp only [main, getSslFiles, getCertBody, h]

/-- Witness for the amended C7: a file system without the certificate. -/
theorem main_cert_unreadable_witness :
    (main keyOnly servingListeners).2 = .panicked ∧
    (main keyOnly servingListeners).1.filterMap Action.listenerAddr = [] :=
  (main_cert_unreadable keyOnly servingListeners).1 rfl

/-- C9: once the certificate is read, the listener-start actions of `main`
are, in order, the detached starts on `:8080`, `:8082` and `:8081` and then
the call of the QUIC listener on `:8083`, which is the last action of `main`
and the only listener start that is not detached; `main` returns exactly when
the QUIC listener gives up and stays blocked exactly when it serves forever;
what the other listeners do changes neither the actions of `main` nor its
end. -/
theorem main_listeners (readFile : GoString → Option ByteSlice)
    (listener : GoString → Option GoString) (body : ByteSlice)
    (hcert : readFile "ssl/server.crt".toList = some body) (hcap : 50 ≤ body.cap) :
    (main readFile listener).1.filter (fun a => a.listenerAddr.isSome) =
      [ .goListenAndServe ":8080".toList,
        .goListenAndServeTLS ":8082".toList "ssl/server.crt".toList "ssl/server.key".toList,
        .goServerListenAndServeTLS ":8081".toList "ssl/server.crt".toList
          "ssl/server.key".toList,
        .callListenAndServeQUIC ":8083".toList "ssl/server.crt".toList
          "ssl/server.key".toList ] ∧
    (main readFile listener).1.getLast? =
      some (.callListenAndServeQUIC ":8083".toList "ssl/server.crt".toList
        "ssl/server.key".toList) ∧
    ((main readFile listener).1.filter
        (fun a => a.listenerAddr.isSome && !a.isDetached)).map Action.listenerAddr =
      [some ":8083".toList] ∧
    ((main readFile listener).2 = .returned ↔ (listener ":8083".toList).isSome = true) ∧
    ((main readFile listener).2 = .blocked ↔ listener ":8083".toList = none) ∧
    (∀ listener' : GoString → Option GoString,
      (main readFile listener').1 = (main readFile listener).1) ∧
    (∀ listener' : GoString → Option GoString,
      listener' ":8083".toList = listener ":8083".toList →
      main readFile listener' = main readFile listener) := by
  have hm := main_of_cert_readable readFile listener body hcert hcap
  refine ⟨?_, ?_, ?_, ?_, ?_, ?_, ?_⟩
  · rw [hm]; rfl
  · rw [hm]; rfl
  · rw [hm]; rfl
  · rw [hm]; cases listener ":8083".toList <;> simp
  · rw [hm]; cases listener ":8083".toList <;> simp
  · intro listener'
    rw [hm, main_of_cert_readable readFile listener' body hcert hcap]
  · intro listener' h
    rw [hm, main_of_cert_readable readFile listener' body hcert hcap, h]

/-- Witness for C9: a readable certificate, and listeners that all give up. -/
theorem main_listeners_witness :
    (main certOnly failingListeners).2 = .returned :=
  ((main_listeners certOnly failingListeners
    sampleCertificate rfl (by decide)).2.2.2.1).2 rfl

end HttpComparator
